import Mathlib

/-!
Verification of the content-based movie recommendation model builder
(`build_model.py`).  The pipeline decodes semi-structured string fields
into name lists, aggregates them into one tag string per item, vectorizes
the tags into integer count vectors and computes an all-pairs cosine
similarity matrix, persisting the enriched table and the matrix as two
positionally aligned artifacts.

The embedding models Python values by the inductive `PyValue` (the kinds
of values that occur in the pipeline: `None`, booleans, integers, the
float `nan` produced by pandas for a missing CSV cell, strings, lists and
string-keyed dicts).  `ast.literal_eval` is library code and is abstracted
as a parameter `ev : String → Option PyValue` (`none` models a raised
exception); likewise `CountVectorizer.fit_transform` is abstracted as a
corpus-to-matrix function.  Exceptions of repository code are modelled by
`Option` results; arithmetic of the similarity computation is modelled
over exact reals.
-/

/-- Python runtime values occurring in the pipeline.  `vNan` is the float
`nan` that pandas stores for a missing CSV cell; it is distinguished from
`vNone` because Python treats `nan` as truthy and `str(nan) = "nan"`. -/
inductive PyValue where
  | vNone : PyValue
  | vBool : Bool → PyValue
  | vInt : Int → PyValue
  | vNan : PyValue
  | vStr : String → PyValue
  | vList : List PyValue → PyValue
  | vDict : List (String × PyValue) → PyValue
deriving Inhabited

open PyValue

/-- Python truthiness (`bool(x)`): `None` and empty containers and `""`
and `0` are falsy; note that `float("nan")` is truthy. -/
def truthy : PyValue → Bool
  | vNone => false
  | vBool b => b
  | vInt n => decide (n ≠ 0)
  | vNan => true
  | vStr s => !s.data.isEmpty
  | vList l => !l.isEmpty
  | vDict kvs => !kvs.isEmpty

/-- Python `a or b`: the first operand if it is truthy, else the second. -/
def pyOr (a b : PyValue) : PyValue := if truthy a then a else b

/-- Python `d.get(k)` on a dict (default `None`); on a non-dict value the
pipeline never calls `.get`, so the result is irrelevant and set to
`None`.  Duplicate keys in a dict literal keep the last binding, hence
the reversed lookup. -/
def pyGet (v : PyValue) (k : String) : PyValue :=
  match v with
  | vDict kvs => ((kvs.reverse.find? (fun kv => kv.1 = k)).map (fun kv => kv.2)).getD vNone
  | _ => vNone

/-- Python `repr` of a value (containers render their elements with
`repr`, which is also what `str` does on containers).  String escaping
inside `repr` of a string is not modelled beyond quoting. -/
def pyRepr : PyValue → String
  | vNone => "None"
  | vBool true => "True"
  | vBool false => "False"
  | vInt n => toString n
  | vNan => "nan"
  | vStr s => "'" ++ s ++ "'"
  | vList l => "[" ++ ", ".intercalate (l.attach.map (fun x => pyRepr x.1)) ++ "]"
  | vDict kvs =>
      "\x7b" ++ ", ".intercalate (kvs.attach.map (fun kv => "'" ++ kv.1.1 ++ "': " ++ pyRepr kv.1.2)) ++ "\x7d"
decreasing_by
  all_goals simp_wf
  · have := List.sizeOf_lt_of_mem x.2
    omega
  · rcases kv with ⟨⟨k, v⟩, hm⟩
    have := List.sizeOf_lt_of_mem hm
    simp at this ⊢
    omega

/-- Python `str(x)`: the string itself for a string, the scalar rendering
for scalars (`str` and `repr` agree on them) and `repr` for containers. -/
def pyStr : PyValue → String
  | vStr s => s
  | vNone => "None"
  | vBool true => "True"
  | vBool false => "False"
  | vInt n => toString n
  | vNan => "nan"
  | v => pyRepr v

/-- Python `s.lower()` restricted to basic latin letters (the job labels
compared by the pipeline are plain ASCII). -/
def pyLower (s : String) : String := String.mk (s.data.map Char.toLower)

/-- Python `x.replace(chr(34)+chr(34), chr(34))` on the character list of
a string: collapse each doubled quote character into a single one,
scanning left to right (the CSV fallback of the decoder). -/
def collapseDQ : List Char → List Char
  | '\"' :: '\"' :: rest => '\"' :: collapseDQ rest
  | c :: rest => c :: collapseDQ rest
  | [] => []

/-- The doubled-quote collapsing fallback applied to a `String`. -/
def collapseDQStr (s : String) : String := String.mk (collapseDQ s.data)

/-- Shared decode-with-fallback of `parse_field` and `get_crew_director`:
try `ast.literal_eval` on the raw string, and if it raises, retry once on
the string with doubled quotes collapsed.  `ev` abstracts
`ast.literal_eval`; `none` models a raised exception. -/
def decodeFallback (ev : String → Option PyValue) (s : String) : Option PyValue :=
  match ev s with
  | some d => some d
  | none => ev (collapseDQStr s)

/-- The name-extraction loop of `parse_field` (lines 21-28): for each
dict element take `item.get(chr(39)+"name"+chr(39))` or fall back to the
`title` key, and append `str(name)` when the result is truthy; non-list
data and non-dict elements contribute nothing. -/
def extractNames (data : PyValue) : List String :=
  match data with
  | vList items =>
      items.filterMap (fun item =>
        match item with
        | vDict kvs =>
            let name := pyOr (pyGet (vDict kvs) "name") (pyGet (vDict kvs) "title")
            if truthy name then some (pyStr name) else none
        | _ => none)
  | _ => []

/-- Embedding of `parse_field` (build_model.py lines 9-28).  The input is
`none` when `pd.isna(x)` holds (the cell is `NaN`/`None`), otherwise the
raw string. -/
def parse_field (ev : String → Option PyValue) (x : Option String) : List String :=
  match x with
  | none => []
  | some s =>
      match decodeFallback ev s with
      | some data => extractNames data
      | none => []

/-- Embedding of `get_cast` (lines 31-34); the source default `top_n=3`
is passed explicitly since the embedding has no default arguments. -/
def get_cast (ev : String → Option PyValue) (top_n : Nat) (x : Option String) : List String :=
  (parse_field ev x).take top_n

/-- Truthiness-guarded job test of the crew loop (line 50):
`item.get(job-key) and item.get(job-key).lower() == target`.  The result
is `none` when the expression raises (`.lower()` on a truthy non-string),
`some true` when the item is a dict whose job label case-insensitively
equals the director role, `some false` otherwise. -/
def jobCheck (item : PyValue) : Option Bool :=
  match item with
  | vDict kvs =>
      let j := pyGet (vDict kvs) "job"
      if truthy j then
        match j with
        | vStr s => some (pyLower s == "director")
        | _ => none
      else some false
  | _ => some false

/-- The director-collecting loop of `get_crew_director` (lines 47-52),
over an already decoded list.  A raised exception inside the loop aborts
the whole call (`none`); a matching item appends `item.get(name-key)`
unchecked, which may be `None`. -/
def directorsOf : List PyValue → Option (List PyValue)
  | [] => some []
  | item :: rest =>
      match jobCheck item with
      | none => none
      | some true => (directorsOf rest).map (fun ds => pyGet item "name" :: ds)
      | some false => directorsOf rest

/-- Embedding of `get_crew_director` (lines 37-52).  The outer result is
`none` when the call raises (only possible inside the loop); decode
failures are absorbed to `some []` exactly as in `parse_field`. -/
def get_crew_director (ev : String → Option PyValue) (x : Option String) :
    Option (List PyValue) :=
  match x with
  | none => some []
  | some s =>
      match decodeFallback ev s with
      | some data =>
          match data with
          | vList l => directorsOf l
          | _ => some []
      | none => some []

/-- Per-token normalization of `clean_token_list`: remove every space
character (Python `t.replace` of a space by the empty string removes all
its occurrences) and lowercase the rest. -/
def normTok (s : String) : String :=
  String.mk ((s.data.filter (fun c => c ≠ ' ')).map Char.toLower)

/-- Embedding of `clean_token_list` (lines 55-57): normalize each string
element, drop every non-string element. -/
def clean_token_list (lst : List PyValue) : List String :=
  lst.filterMap (fun t =>
    match t with
    | vStr s => some (normTok s)
    | _ => none)

/-- The columns of one row of `merged` that `make_tags` reads.  In the
pipeline `overview` is the raw CSV cell (a string, or `nan` for a missing
cell); the four parsed columns are the list outputs of `parse_field`,
`get_cast` and `get_crew_director`.  On these list-valued columns the
source's guard, Python `row.get(column) or empty-list`, is the identity
(an empty list stays empty), so it is not repeated here. -/
structure Row where
  overview : PyValue
  genres_parsed : List PyValue
  keywords_parsed : List PyValue
  cast_parsed : List PyValue
  director_parsed : List PyValue

/-- Default row used only for out-of-range `List.getD` accesses. -/
def dRow : Row := ⟨vNone, [], [], [], []⟩

instance : Inhabited Row := ⟨dRow⟩

/-- Embedding of `make_tags` (build_model.py lines 86-93): the synopsis
defaulted by `or` to the empty string, then the four normalized token
lists, joined by single spaces after dropping falsy parts. -/
def make_tags (row : Row) : String :=
  let overview := pyOr row.overview (vStr "")
  let genres := clean_token_list row.genres_parsed
  let keywords := clean_token_list row.keywords_parsed
  let cast := clean_token_list row.cast_parsed
  let director := clean_token_list row.director_parsed
  let parts := [overview] ++ (genres ++ keywords ++ cast ++ director).map vStr
  " ".intercalate ((parts.filter truthy).map pyStr)

/-- Dot product of two count vectors (`zipWith` truncates to the shorter
length; the vectorizer always produces rows of equal width). -/
def dotN (v w : List Nat) : Nat := (List.zipWith (fun a b => a * b) v w).sum

/-- Row norm as used by sklearn's `cosine_similarity`, which normalizes
each row and replaces a zero norm by 1 so that zero rows stay zero. -/
noncomputable def nrm (v : List Nat) : ℝ :=
  if dotN v v = 0 then 1 else Real.sqrt (dotN v v)

/-- Cosine similarity of two count vectors under sklearn's zero-vector
convention, over exact reals. -/
noncomputable def cosineSim (v w : List Nat) : ℝ := (dotN v w : ℝ) / (nrm v * nrm w)

/-- The all-pairs similarity matrix `cosine_similarity(vectors)`
(line 102), one row and one column per item, in corpus order. -/
noncomputable def simMatrix (vecs : List (List Nat)) : List (List ℝ) :=
  vecs.map (fun v => vecs.map (fun w => cosineSim v w))

/-- Entry `sim[i][j]` of the similarity matrix, with 0 for out-of-range
indices. -/
noncomputable def simEntry (vecs : List (List Nat)) (i j : Nat) : ℝ :=
  ((simMatrix vecs).getD i []).getD j 0

/-- The tail of `main` from the `merged` table onward (lines 95-114):
attach the derived `tags` column in row order, vectorize the tag corpus
(`f` abstracts `cv.fit_transform`), compute the similarity matrix and
return the two artifacts exactly as persisted — the enriched table
(`out_movies`, a copy of `merged` with its derived columns) first, the
similarity matrix second.  No reordering happens anywhere. -/
noncomputable def pipelineTail (f : List String → List (List Nat)) (merged : List Row) :
    List (Row × String) × List (List ℝ) :=
  let tagged := merged.map (fun r => (r, make_tags r))
  let tags := tagged.map (fun rt => rt.2)
  let vectors := f tags
  let similarity := simMatrix vectors
  (tagged, similarity)

/-- Abstract file system: which file names exist (`os.path.exists`). -/
structure FS where
  hasFile : String → Bool

/-- The expected item-table file name (line 61). -/
def movies_csv : String := "Movies 500.csv"

/-- The expected contributor-table file name (line 62). -/
def credits_csv : String := "Credits 500.csv"

/-- Diagnostic printed when a required input file is missing (line 65). -/
def missing_msg : String :=
  "Required CSV files not found. Place \"Movies 500.csv\" and \"Credits 500.csv\" here."

/-- Message printed after both artifacts are written (line 116). -/
def built_msg : String :=
  "Built model files: model/movie_list.pkl and model/similarity.pkl"

/-- Observable outcome of one run of `main`: the lines printed and the
artifact pair written to the model directory (`none` when nothing is
written). -/
structure MainResult where
  printed : List String
  artifacts : Option (List (Row × String) × List (List ℝ))

/-- Embedding of `main` (lines 60-116).  CSV loading, parsing and the
left join (lines 68-83) are out-of-scope collaborators, abstracted by the
`merged` table they produce; `f` abstracts the vectorizer.  If either
required file is absent, `main` prints the diagnostic and returns early,
writing nothing. -/
noncomputable def main (fs : FS) (merged : List Row)
    (f : List String → List (List Nat)) : MainResult :=
  if fs.hasFile movies_csv && fs.hasFile credits_csv then
    ⟨[built_msg], some (pipelineTail f merged)⟩
  else
    ⟨[missing_msg], none⟩

/-- Test stub for `ast.literal_eval` used by witnesses: decodes one
well-formed cast-style string and raises on everything else. -/
def evA : String → Option PyValue := fun s =>
  if s = "good" then some (vList [vDict [("name", vStr "A")]]) else none

/-- Test stub for `ast.literal_eval` used by witnesses: decodes one
well-formed crew-style string and raises on everything else. -/
def evB : String → Option PyValue := fun s =>
  if s = "crew" then
    some (vList [vDict [("job", vStr "Director"), ("name", vStr "JC")],
                 vDict [("job", vStr "Writer"), ("name", vStr "W")]])
  else none

/-- The non-synopsis portion of a tag string: the normalized genre,
keyword, cast and director tokens in this fixed order, with falsy (empty)
tokens dropped, as `make_tags`'s final filtering join leaves them. -/
def tagParts (row : Row) : List String :=
  (clean_token_list row.genres_parsed ++ clean_token_list row.keywords_parsed ++
   clean_token_list row.cast_parsed ++ clean_token_list row.director_parsed).filter
    (fun t => !t.data.isEmpty)

/-! Helper lemmas. -/

lemma toLower_eq_ite (c : Char) :
    Char.toLower c = if 65 ≤ c.toNat ∧ c.toNat ≤ 90 then Char.ofNat (c.toNat + 32) else c := rfl

lemma toLower_not_ascii_upper (c : Char) :
    ¬(65 ≤ (Char.toLower c).toNat ∧ (Char.toLower c).toNat ≤ 90) := by
  rw [toLower_eq_ite]
  split
  next h =>
    obtain ⟨h1, h2⟩ := h
    generalize Char.toNat c = n at h1 h2
    interval_cases n <;> decide
  next h => exact h

lemma toLower_ne_space (c : Char) (h : c ≠ ' ') : Char.toLower c ≠ ' ' := by
  rw [toLower_eq_ite]
  split
  next hc =>
    obtain ⟨h1, h2⟩ := hc
    generalize Char.toNat c = n at h1 h2
    interval_cases n <;> decide
  next hc => exact h

lemma filter_truthy_map_vStr (toks : List String) :
    (((toks.map vStr).filter truthy).map pyStr) = toks.filter (fun t => !t.data.isEmpty) := by
  induction toks with
  | nil => rfl
  | cons a rest ih =>
    by_cases h : a.data.isEmpty <;>
      simp [List.filter_cons, truthy, h, pyStr, ih]

lemma make_tags_eq (row : Row) :
    make_tags row = " ".intercalate
      ((([pyOr row.overview (vStr "")]).filter truthy).map pyStr ++ tagParts row) := by
  have hsplit : ∀ (a : PyValue) (l : List PyValue),
      (a :: l).filter truthy = [a].filter truthy ++ l.filter truthy := by
    intro a l
    rw [List.filter_cons]
    split <;> simp_all [List.filter_cons]
  unfold make_tags tagParts
  dsimp only [List.singleton_append]
  rw [hsplit]
  simp only [List.map_append, List.filter_append, filter_truthy_map_vStr, List.map_map,
    List.append_assoc]

lemma directorsOf_eq (l : List PyValue) :
    ∀ ds, directorsOf l = some ds →
      ds = (l.filter (fun i => jobCheck i == some true)).map (fun i => pyGet i "name") := by
  induction l with
  | nil =>
    intro ds h
    simp [directorsOf] at h
    subst h
    simp
  | cons a t ih =>
    intro ds h
    cases hj : jobCheck a with
    | none => simp [directorsOf, hj] at h
    | some b =>
      cases b with
      | false =>
        simp only [directorsOf, hj] at h
        have h2 := ih ds h
        simp [List.filter_cons, hj, h2]
      | true =>
        simp only [directorsOf, hj, Option.map_eq_some'] at h
        obtain ⟨ds', hd, hds⟩ := h
        subst hds
        have h2 := ih ds' hd
        simp [List.filter_cons, hj, h2]

/-! Claim theorems. -/

/-- C5: for every input to `parse_field`, an absent/null input yields the
empty list (not an error); otherwise primary decoding is attempted, on
failure a single retry is made on the doubled-quote-collapsed string, and
if both attempts fail the result is the empty list.  The embedding is a
total function, so decoding never raises for malformed input. -/
theorem parse_field_contract (ev : String → Option PyValue) (s : String) (d : PyValue) :
    parse_field ev none = [] ∧
    (ev s = some d → parse_field ev (some s) = extractNames d) ∧
    (ev s = none → ev (collapseDQStr s) = some d → parse_field ev (some s) = extractNames d) ∧
    (ev s = none → ev (collapseDQStr s) = none → parse_field ev (some s) = []) := by
  refine ⟨rfl, ?_, ?_, ?_⟩
  · intro h
    simp [parse_field, decodeFallback, h]
  · intro h1 h2
    simp [parse_field, decodeFallback, h1, h2]
  · intro h1 h2
    simp [parse_field, decodeFallback, h1, h2]

/-- Witness for C5 at the concrete evaluator `evA`: a decodable input
goes through the primary decode, and an input on which both decode
attempts raise yields the empty list. -/
theorem parse_field_contract_witness :
    parse_field evA (some "good") = extractNames (vList [vDict [("name", vStr "A")]]) ∧
    parse_field evA (some "bad") = [] :=
  ⟨(parse_field_contract evA "good" (vList [vDict [("name", vStr "A")]])).2.1 rfl,
   (parse_field_contract evA "bad" vNone).2.2.2 rfl rfl⟩

/-- C6: for every cast field input, `get_cast` (at the source's fixed cap
`top_n = 3`) returns at most 3 names, and the returned names are an
initial segment of the full decoded name list, hence appear in the same
relative order as the records in the source list. -/
theorem get_cast_len_order (ev : String → Option PyValue) (x : Option String) :
    (get_cast ev 3 x).length ≤ 3 ∧
    get_cast ev 3 x ++ (parse_field ev x).drop 3 = parse_field ev x := by
  constructor
  · simp [get_cast]
  · simp [get_cast]

/-- C8 counterexample: the claim says every element of the output of
`clean_token_list` has all internal whitespace removed, but the source
only removes the space character; a tab survives normalization, and a tab
is whitespace. -/
theorem clean_token_list_whitespace_cex :
    clean_token_list [vStr "A\tB"] = ["a\tb"] ∧
    '\t' ∈ ("a\tb" : String).data ∧ ('\t').isWhitespace = true :=
  ⟨rfl, by decide, by decide⟩

/-- C8 as amended: every element of the output of `clean_token_list` is
the space-character-stripped ASCII-lowercasing of a string element of the
input (kept in order), so output characters are never the space character
U+0020 and never an ASCII uppercase letter (code 65-90); every non-string
element of the input is dropped rather than raising an error.  Whitespace
other than U+0020 (e.g. a tab) is not removed. -/
theorem clean_token_list_norm (lst : List PyValue) :
    clean_token_list lst =
      (lst.filterMap (fun t => match t with | vStr s => some s | _ => none)).map normTok ∧
    ∀ t ∈ clean_token_list lst, ∀ c ∈ t.data,
      c ≠ ' ' ∧ ¬(65 ≤ c.toNat ∧ c.toNat ≤ 90) := by
  constructor
  · induction lst with
    | nil => rfl
    | cons a rest ih => cases a <;> simp [clean_token_list, List.filterMap_cons] at ih ⊢ <;> exact ih
  · intro t ht c hc
    have hmem : ∃ s, t = normTok s := by
      rcases List.mem_filterMap.mp ht with ⟨a, _, ha⟩
      cases a with
      | vStr s => exact ⟨s, (Option.some.inj ha).symm⟩
      | vNone => simp at ha
      | vBool b => simp at ha
      | vInt n => simp at ha
      | vNan => simp at ha
      | vList l => simp at ha
      | vDict kvs => simp at ha
    obtain ⟨s, rfl⟩ := hmem
    have hc' : c ∈ (s.data.filter (fun c => c ≠ ' ')).map Char.toLower := hc
    rcases List.mem_map.mp hc' with ⟨c0, hc0, rfl⟩
    have hc0' := (List.mem_filter.mp hc0).2
    refine ⟨toLower_ne_space c0 (by simpa using hc0'), toLower_not_ascii_upper c0⟩

/-- C9: if either required input file is absent, `main` prints exactly
the diagnostic — whose text names both expected filenames — and returns
early, writing no output artifact at all. -/
theorem main_missing_input (fs : FS) (merged : List Row)
    (f : List String → List (List Nat))
    (h : fs.hasFile movies_csv = false ∨ fs.hasFile credits_csv = false) :
    (main fs merged f).artifacts = none ∧
    (main fs merged f).printed = [missing_msg] ∧
    (∃ a b : String, missing_msg = a ++ movies_csv ++ b) ∧
    (∃ a b : String, missing_msg = a ++ credits_csv ++ b) := by
  have hcond : (fs.hasFile movies_csv && fs.hasFile credits_csv) = false := by
    rcases h with h | h <;> simp [h]
  refine ⟨?_, ?_, ?_, ?_⟩
  · simp [main, hcond]
  · simp [main, hcond]
  · exact ⟨"Required CSV files not found. Place \"",
           "\" and \"Credits 500.csv\" here.", rfl⟩
  · exact ⟨"Required CSV files not found. Place \"Movies 500.csv\" and \"",
           "\" here.", rfl⟩

/-- Witness for C9 on an empty file system: nothing is written and only
the diagnostic is printed. -/
theorem main_missing_input_witness :
    (main ⟨fun _ => false⟩ [] (fun _ => [])).artifacts = none ∧
    (main ⟨fun _ => false⟩ [] (fun _ => [])).printed = [missing_msg] ∧
    (∃ a b : String, missing_msg = a ++ movies_csv ++ b) ∧
    (∃ a b : String, missing_msg = a ++ credits_csv ++ b) :=
  main_missing_input ⟨fun _ => false⟩ [] (fun _ => []) (Or.inl rfl)

/-- C10: a crew record whose job label case-insensitively equals
"director" but which has no name key contributes `None` to the list
returned by `get_crew_director`'s loop (nameless records are not skipped
the way `parse_field` skips them), and `clean_token_list` silently drops
such a `None` entry during tag construction. -/
theorem director_without_name (l ds : List PyValue) (item : PyValue) (s : String)
    (h1 : directorsOf l = some ds) (h2 : item ∈ l)
    (h3 : pyGet item "job" = vStr s) (h4 : pyLower s = "director")
    (h5 : pyGet item "name" = vNone) :
    vNone ∈ ds ∧ ∀ rest, clean_token_list (vNone :: rest) = clean_token_list rest := by
  constructor
  · have hdict : ∃ kvs, item = vDict kvs := by
      cases item with
      | vDict kvs => exact ⟨kvs, rfl⟩
      | vNone => simp [pyGet] at h3
      | vBool b => simp [pyGet] at h3
      | vInt n => simp [pyGet] at h3
      | vNan => simp [pyGet] at h3
      | vStr t => simp [pyGet] at h3
      | vList t => simp [pyGet] at h3
    obtain ⟨kvs, rfl⟩ := hdict
    have hne : s ≠ "" := by
      intro hs
      subst hs
      exact absurd h4 (by decide)
    have hjc : jobCheck (vDict kvs) = some true := by
      simp only [jobCheck, h3]
      have ht : truthy (vStr s) = true := by
        simp [truthy, List.isEmpty_iff]
        intro hd
        exact hne (by cases s; simp_all)
      simp [ht, h4]
    have := directorsOf_eq l ds h1
    subst this
    refine List.mem_map.mpr ⟨vDict kvs, List.mem_filter.mpr ⟨h2, by simp [hjc]⟩, h5⟩
  · intro rest
    rfl

/-- Witness for C10: a single crew record tagged as director, without a
name key, yields `some [None]`, and the normalizer drops the `None`. -/
theorem director_without_name_witness :
    vNone ∈ [vNone] ∧
    ∀ rest, clean_token_list (vNone :: rest) = clean_token_list rest :=
  director_without_name [vDict [("job", vStr "Director")]] [vNone]
    (vDict [("job", vStr "Director")]) "Director" rfl (List.mem_singleton.mpr rfl)
    rfl rfl rfl

/-- C4 counterexample: the claim says an absent field contributes nothing
to the tag string, but a missing synopsis cell — which pandas represents
as the truthy float `nan` — survives the `or`-defaulting and contributes
the literal text "nan": a row whose every field is absent or empty gets
the tag "nan" instead of the empty string. -/
theorem make_tags_nan_cex :
    make_tags ⟨vNan, [], [], [], []⟩ = "nan" ∧ ("nan" : String) ≠ "" :=
  ⟨rfl, by decide⟩

/-- C4 as amended: the aggregated tag string is the space-join, in this
fixed order, of the synopsis text, then the normalized genre, keyword,
cast and director tokens; a falsy (empty or `None`) or key-absent field
contributes nothing and the aggregator never fails on such a row — but a
synopsis cell holding pandas' missing-value marker `nan` is truthy and
contributes the literal text "nan". -/
theorem make_tags_fixed_order (row : Row) :
    (∀ s, row.overview = vStr s → s ≠ "" →
        make_tags row = " ".intercalate (s :: tagParts row)) ∧
    (row.overview = vStr "" → make_tags row = " ".intercalate (tagParts row)) ∧
    (row.overview = vNone → make_tags row = " ".intercalate (tagParts row)) ∧
    (row.overview = vNan → make_tags row = " ".intercalate ("nan" :: tagParts row)) := by
  refine ⟨?_, ?_, ?_, ?_⟩
  · intro s hov hs
    rw [make_tags_eq, hov]
    have hd : s.data ≠ [] := fun hdat => hs (by cases s; simp_all)
    simp [pyOr, truthy, List.isEmpty_iff, hd, pyStr]
  · intro hov
    rw [make_tags_eq, hov]
    simp [pyOr, truthy]
  · intro hov
    rw [make_tags_eq, hov]
    simp [pyOr, truthy]
  · intro hov
    rw [make_tags_eq, hov]
    simp [pyOr, truthy, pyStr]

/-- Witness for C4 as amended, at four concrete rows, one per synopsis
shape: a non-empty synopsis leads the join, an empty or `None` synopsis
contributes nothing, and a `nan` synopsis contributes the text "nan". -/
theorem make_tags_fixed_order_witness :
    make_tags ⟨vStr "A B", [vStr "Sci Fi"], [], [], []⟩ =
      " ".intercalate ("A B" :: tagParts ⟨vStr "A B", [vStr "Sci Fi"], [], [], []⟩) ∧
    make_tags ⟨vStr "", [vStr "Sci Fi"], [], [], []⟩ =
      " ".intercalate (tagParts ⟨vStr "", [vStr "Sci Fi"], [], [], []⟩) ∧
    make_tags ⟨vNone, [], [], [vStr "Sam W"], []⟩ =
      " ".intercalate (tagParts ⟨vNone, [], [], [vStr "Sam W"], []⟩) ∧
    make_tags ⟨vNan, [], [], [], [vStr "J C"]⟩ =
      " ".intercalate ("nan" :: tagParts ⟨vNan, [], [], [], [vStr "J C"]⟩) :=
  ⟨(make_tags_fixed_order _).1 "A B" rfl (by decide),
   (make_tags_fixed_order _).2.1 rfl,
   (make_tags_fixed_order _).2.2.1 rfl,
   (make_tags_fixed_order _).2.2.2 rfl⟩

/-- C7: whenever `get_crew_director` returns normally, every entry of the
returned list comes from a decoded crew record whose job value is a
string that case-insensitively equals "director" (records missing the job
key have job value `None`, which can never satisfy this, so they are
excluded rather than defaulted). -/
theorem get_crew_director_only (ev : String → Option PyValue) (x : Option String)
    (ds : List PyValue) (h : get_crew_director ev x = some ds) :
    ∀ d ∈ ds, ∃ s l, x = some s ∧ decodeFallback ev s = some (vList l) ∧
      ∃ item, item ∈ l ∧
        (∃ js, pyGet item "job" = vStr js ∧ pyLower js = "director") ∧
        d = pyGet item "name" := by
  intro d hd
  cases x with
  | none =>
    simp only [get_crew_director, Option.some.injEq] at h
    subst h
    simp at hd
  | some s =>
    cases hdec : decodeFallback ev s with
    | none =>
      rw [get_crew_director] at h
      rw [hdec] at h
      obtain rfl : ([] : List PyValue) = ds := Option.some.inj h
      simp at hd
    | some data =>
      rw [get_crew_director] at h
      rw [hdec] at h
      cases data with
      | vList l =>
        have hds := directorsOf_eq l ds h
        subst hds
        rcases List.mem_map.mp hd with ⟨item, hmem, rfl⟩
        obtain ⟨hil, hpred⟩ := List.mem_filter.mp hmem
        have hjc : jobCheck item = some true := by simpa using hpred
        refine ⟨s, l, rfl, hdec, item, hil, ?_, rfl⟩
        cases item with
        | vDict kvs =>
          cases hj : pyGet (vDict kvs) "job" with
          | vStr js =>
            simp only [jobCheck, hj] at hjc
            split at hjc
            · exact ⟨js, rfl, by simpa using Option.some.inj hjc⟩
            · simp at hjc
          | vNone => simp only [jobCheck, hj] at hjc; split at hjc <;> simp_all [truthy]
          | vBool b => simp only [jobCheck, hj] at hjc; split at hjc <;> simp_all
          | vInt n => simp only [jobCheck, hj] at hjc; split at hjc <;> simp_all
          | vNan => simp only [jobCheck, hj] at hjc; split at hjc <;> simp_all
          | vList t => simp only [jobCheck, hj] at hjc; split at hjc <;> simp_all
          | vDict t => simp only [jobCheck, hj] at hjc; split at hjc <;> simp_all
        | vNone => simp [jobCheck] at hjc
        | vBool b => simp [jobCheck] at hjc
        | vInt n => simp [jobCheck] at hjc
        | vNan => simp [jobCheck] at hjc
        | vStr t => simp [jobCheck] at hjc
        | vList t => simp [jobCheck] at hjc
      | vNone => obtain rfl : ([] : List PyValue) = ds := Option.some.inj h; simp at hd
      | vBool b => obtain rfl : ([] : List PyValue) = ds := Option.some.inj h; simp at hd
      | vInt n => obtain rfl : ([] : List PyValue) = ds := Option.some.inj h; simp at hd
      | vNan => obtain rfl : ([] : List PyValue) = ds := Option.some.inj h; simp at hd
      | vStr t => obtain rfl : ([] : List PyValue) = ds := Option.some.inj h; simp at hd
      | vDict t => obtain rfl : ([] : List PyValue) = ds := Option.some.inj h; simp at hd

/-- Witness for C7: on a concrete decodable crew field with one director
and one writer, the single returned entry traces back to the director
record. -/
theorem get_crew_director_only_witness :
    ∃ s l, (some "crew" : Option String) = some s ∧
      decodeFallback evB s = some (vList l) ∧
      ∃ item, item ∈ l ∧
        (∃ js, pyGet item "job" = vStr js ∧ pyLower js = "director") ∧
        vStr "JC" = pyGet item "name" :=
  get_crew_director_only evB (some "crew") [vStr "JC"] rfl (vStr "JC")
    (List.mem_singleton.mpr rfl)

lemma dotN_comm (v w : List Nat) : dotN v w = dotN w v := by
  unfold dotN
  rw [List.zipWith_comm_of_comm]
  intro x y
  exact Nat.mul_comm x y

lemma dotN_self_zero_iff (v : List Nat) :
    dotN v v = 0 ↔ v.all (fun a => a == 0) = true := by
  induction v with
  | nil => simp [dotN]
  | cons a t ih =>
    rw [show dotN (a :: t) (a :: t) = a * a + dotN t t from rfl]
    simp [Nat.add_eq_zero, mul_self_eq_zero, ih, List.all_cons]

lemma dotN_zero_left (v w : List Nat) (h : v.all (fun a => a == 0) = true) :
    dotN v w = 0 := by
  induction v generalizing w with
  | nil => simp [dotN]
  | cons a t ih =>
    cases w with
    | nil => simp [dotN]
    | cons b u =>
      simp only [List.all_cons, Bool.and_eq_true, beq_iff_eq] at h
      obtain ⟨ha, ht⟩ := h
      rw [show dotN (a :: t) (b :: u) = a * b + dotN t u from rfl, ha]
      simp [ih u ht]

lemma cosineSim_comm (v w : List Nat) : cosineSim v w = cosineSim w v := by
  unfold cosineSim
  rw [dotN_comm, mul_comm]

lemma getD_map_of_lt {α β : Type} (h : α → β) (l : List α) (i : Nat) (d : β) (d' : α)
    (hi : i < l.length) : (l.map h).getD i d = h (l.getD i d') := by
  rw [List.getD_eq_getElem?_getD, List.getElem?_map, List.getElem?_eq_getElem hi,
    List.getD_eq_getElem?_getD, List.getElem?_eq_getElem hi]
  rfl

lemma simEntry_eq_of_lt (vecs : List (List Nat)) (i j : Nat)
    (hi : i < vecs.length) (hj : j < vecs.length) :
    simEntry vecs i j = cosineSim (vecs.getD i []) (vecs.getD j []) := by
  unfold simEntry simMatrix
  rw [getD_map_of_lt _ vecs i [] [] hi, getD_map_of_lt _ vecs j 0 [] hj]

lemma getD_eq_default_of_le {α : Type} (l : List α) (j : Nat) (d : α)
    (hj : l.length ≤ j) : l.getD j d = d := by
  rw [List.getD_eq_getElem?_getD, List.getElem?_eq_none hj]
  rfl

lemma simEntry_zero_of_len_le (vecs : List (List Nat)) (i j : Nat)
    (hij : vecs.length ≤ i ∨ vecs.length ≤ j) : simEntry vecs i j = 0 := by
  unfold simEntry
  by_cases hi : i < vecs.length
  · have hj : vecs.length ≤ j := by
      rcases hij with h | h
      · omega
      · exact h
    unfold simMatrix
    rw [getD_map_of_lt _ vecs i [] [] hi, getD_eq_default_of_le _ j 0 (by simpa using hj)]
  · unfold simMatrix
    rw [getD_eq_default_of_le _ i [] (by simpa using Nat.le_of_not_lt hi)]
    simp

/-- C1: the self-similarity of a count vector is 1 when the vector is
non-zero and 0 when the vector is entirely zero (e.g. the vectorization
of an empty tag string), and any pair involving an entirely zero vector
has similarity 0 — a defined real number in every case, never an
undefined value.  Stated over exact reals for arbitrary count vectors,
which covers every feature matrix the vectorizer can produce. -/
theorem cosineSim_diag_zero (v w : List Nat) :
    (cosineSim v v = if v.all (fun a => a == 0) = true then (0 : ℝ) else 1) ∧
    (v.all (fun a => a == 0) = true → cosineSim v w = 0 ∧ cosineSim w v = 0) := by
  constructor
  · by_cases h : v.all (fun a => a == 0) = true
    · rw [if_pos h]
      have hz : dotN v v = 0 := (dotN_self_zero_iff v).mpr h
      simp [cosineSim, hz]
    · rw [if_neg h]
      have hz : dotN v v ≠ 0 := fun hc => h ((dotN_self_zero_iff v).mp hc)
      have hlt : 0 < dotN v v := Nat.pos_of_ne_zero hz
      unfold cosineSim nrm
      rw [if_neg hz, Real.mul_self_sqrt (by positivity)]
      exact div_self (by exact_mod_cast hz)
  · intro h
    have h1 : dotN v w = 0 := dotN_zero_left v w h
    have h2 : dotN w v = 0 := by rw [dotN_comm]; exact h1
    constructor <;> simp [cosineSim, h1, h2]

/-- Witness for C1: the all-zero vector pairs to similarity 0 against a
non-zero vector, on both sides, and a non-zero vector has diagonal
entry 1. -/
theorem cosineSim_diag_zero_witness :
    cosineSim [0, 0] [5] = 0 ∧ cosineSim [5] [0, 0] = 0 ∧
    cosineSim [1, 2] [1, 2] =
      (if [1, 2].all (fun a => a == 0) = true then (0 : ℝ) else 1) :=
  ⟨((cosineSim_diag_zero [0, 0] [5]).2 (by decide)).1,
   ((cosineSim_diag_zero [0, 0] [5]).2 (by decide)).2,
   (cosineSim_diag_zero [1, 2] [5]).1⟩

/-- C2: for every feature matrix, the similarity matrix computed from it
is square — as many rows as vectors, every in-range row of full width —
and symmetric: `sim[i][j] = sim[j][i]` for all indices, in-range or not
(out-of-range entries read as the default 0 on both sides). -/
theorem simMatrix_square_symm (vecs : List (List Nat)) :
    (simMatrix vecs).length = vecs.length ∧
    (∀ i, ((simMatrix vecs).getD i []).length =
      if i < vecs.length then vecs.length else 0) ∧
    (∀ i j, simEntry vecs i j = simEntry vecs j i) := by
  refine ⟨by simp [simMatrix], ?_, ?_⟩
  · intro i
    by_cases hi : i < vecs.length
    · rw [if_pos hi]
      unfold simMatrix
      rw [getD_map_of_lt _ vecs i [] [] hi]
      simp
    · rw [if_neg hi]
      unfold simMatrix
      rw [getD_eq_default_of_le _ i [] (by simpa using Nat.le_of_not_lt hi)]
      rfl
  · intro i j
    by_cases hi : i < vecs.length <;> by_cases hj : j < vecs.length
    · rw [simEntry_eq_of_lt vecs i j hi hj, simEntry_eq_of_lt vecs j i hj hi,
        cosineSim_comm]
    · rw [simEntry_zero_of_len_le vecs i j (Or.inr (Nat.le_of_not_lt hj)),
        simEntry_zero_of_len_le vecs j i (Or.inl (Nat.le_of_not_lt hj))]
    · rw [simEntry_zero_of_len_le vecs i j (Or.inl (Nat.le_of_not_lt hi)),
        simEntry_zero_of_len_le vecs j i (Or.inr (Nat.le_of_not_lt hi))]
    · rw [simEntry_zero_of_len_le vecs i j (Or.inl (Nat.le_of_not_lt hi)),
        simEntry_zero_of_len_le vecs j i (Or.inr (Nat.le_of_not_lt hi))]

/-- C3: positional index alignment of the two persisted artifacts.  The
persisted enriched table is exactly the `merged` rows in their original
order (no re-sorting after the matrix is computed), and for every
row-wise vectorizer — `f` factoring as a per-document embedding `g`
against the whole corpus, as a bag-of-words vectorizer does — entry
`[i][j]` of the persisted similarity matrix is the cosine similarity of
the vectorizations of the tag strings stored at row positions `i` and `j`
of the persisted table. -/
theorem artifact_alignment (merged : List Row) (f : List String → List (List Nat))
    (g : List String → String → List Nat)
    (hf : ∀ ts, f ts = ts.map (g ts)) :
    ((pipelineTail f merged).1.map (fun rt => rt.1) = merged) ∧
    (∀ i j, i < (pipelineTail f merged).1.length → j < (pipelineTail f merged).1.length →
      ((pipelineTail f merged).2.getD i []).getD j 0 =
        cosineSim
          (g ((pipelineTail f merged).1.map (fun rt => rt.2))
             (((pipelineTail f merged).1.getD i (dRow, "")).2))
          (g ((pipelineTail f merged).1.map (fun rt => rt.2))
             (((pipelineTail f merged).1.getD j (dRow, "")).2))) := by
  constructor
  · simp only [pipelineTail, List.map_map]
    have hid : ((fun rt : Row × String => rt.1) ∘ fun r => (r, make_tags r)) =
        fun r : Row => r := rfl
    rw [hid, List.map_id']
  · intro i j hi hj
    simp only [pipelineTail] at hi hj ⊢
    rw [List.length_map] at hi hj
    have hlen : (f ((merged.map (fun r => (r, make_tags r))).map (fun rt => rt.2))).length =
        merged.length := by
      rw [hf]
      simp
    have hi' : i < (f ((merged.map (fun r => (r, make_tags r))).map (fun rt => rt.2))).length := by
      rw [hlen]
      exact hi
    have hj' : j < (f ((merged.map (fun r => (r, make_tags r))).map (fun rt => rt.2))).length := by
      rw [hlen]
      exact hj
    have hent := simEntry_eq_of_lt _ i j hi' hj'
    unfold simEntry at hent
    rw [hent, hf]
    rw [getD_map_of_lt (g ((merged.map (fun r => (r, make_tags r))).map (fun rt => rt.2)))
        _ i [] "" (by simpa using hi),
      getD_map_of_lt (g ((merged.map (fun r => (r, make_tags r))).map (fun rt => rt.2)))
        _ j [] "" (by simpa using hj),
      getD_map_of_lt (fun rt => rt.2) _ i "" (dRow, "") (by simpa using hi),
      getD_map_of_lt (fun rt => rt.2) _ j "" (dRow, "") (by simpa using hj)]

/-- Witness for C3 on a concrete two-row table and a constant row-wise
vectorizer: the persisted table is the merged table unchanged, and entry
`[0][1]` of the matrix is the cosine similarity of the two row vectors. -/
theorem artifact_alignment_witness :
    ((pipelineTail (fun ts => ts.map (fun _ => ([1] : List Nat))) [dRow, dRow]).1.map
        (fun rt => rt.1) = [dRow, dRow]) ∧
    ((pipelineTail (fun ts => ts.map (fun _ => ([1] : List Nat)))
        [dRow, dRow]).2.getD 0 []).getD 1 0 = cosineSim [1] [1] := by
  have h := artifact_alignment [dRow, dRow]
      (fun ts => ts.map (fun _ => ([1] : List Nat)))
      (fun _ _ => ([1] : List Nat)) (fun _ => rfl)
  refine ⟨h.1, ?_⟩
  have h2 := h.2 0 1 ?_ ?_
  · exact h2
  · simp [pipelineTail]
  · simp [pipelineTail]

/-- Witness for C8 as amended, at a concrete list with one string and one
non-string element: the output keeps only the normalized string, and the
sampled output character is neither a space nor ASCII uppercase. -/
theorem clean_token_list_norm_witness :
    clean_token_list [vStr "A b", vInt 2] =
      ([vStr "A b", vInt 2].filterMap
        (fun t => match t with | vStr s => some s | _ => none)).map normTok ∧
    ('a' ≠ ' ' ∧ ¬(65 ≤ ('a').toNat ∧ ('a').toNat ≤ 90)) :=
  ⟨(clean_token_list_norm [vStr "A b", vInt 2]).1,
   (clean_token_list_norm [vStr "A b", vInt 2]).2 "ab" (by decide) 'a' (by decide)⟩
